import Mathlib

/-!
Verification development for the `wenv` repository: a Go program that passes
environment variables from WSL (first personality) to Windows applications
(second personality), together with its Windows-side helper `wenvhelper.exe`.

Strings are modelled as `List Char`; Go's byte-oriented operations on the
inputs exercised here are character-per-byte ASCII, so this is faithful.
All definitions are direct translations of the Go source (`wenv.go` and the
helper's `main`).  Definitions whose name ends in `Claim` or `Amended`
follow the wording of a specification claim instead and exist only to be
compared against the code-derived definitions.
-/

namespace Wenv

/-- Character image of Go `strings.Replace(path, "/", "\\", -1)` (per char). -/
def bchar (c : Char) : Char := if c = '/' then '\\' else c

/-- Character image of Go `strings.Replace(path, "\\", "/", -1)` (per char). -/
def schar (c : Char) : Char := if c = '\\' then '/' else c

/-- Go `strings.Replace(path, "/", "\\", -1)`. -/
def backslashify (l : List Char) : List Char := l.map bchar

/-- Go `strings.Replace(path, "\\", "/", -1)`. -/
def slashify (l : List Char) : List Char := l.map schar

/-- The default mount root `"/mnt/"` (`wslRoot` after `getWSLRoot` finds no
configuration file). -/
def mnt : List Char := "/mnt/".data

/-- Go `strings.Split(s, sep)` for a one-character separator. -/
def splitOnChar (sep : Char) : List Char → List (List Char)
  | [] => [[]]
  | c :: cs =>
    if c = sep then [] :: splitOnChar sep cs
    else
      match splitOnChar sep cs with
      | x :: xs => (c :: x) :: xs
      | [] => [[c]]

/-- Go `strings.Join(p, sep)` for a one-character separator. -/
def joinWith (sep : Char) : List (List Char) → List Char
  | [] => []
  | [x] => x
  | x :: y :: xs => x ++ sep :: joinWith sep (y :: xs)

/-- The anchored match `^wslRoot([a-z])(/|$)` performed by `winpath`:
returns the captured drive letter and the tail after it on success.
`[a-z]` is the ASCII range, `(/|$)` requires the tail to be empty or to
start with `/`. -/
def mountMatch (root p : List Char) : Option (Char × List Char) :=
  match p.drop root.length with
  | c :: rest =>
    if root <+: p ∧ ('a' ≤ c ∧ c ≤ 'z') ∧ (rest = [] ∨ rest.head? = some '/')
    then some (c, rest) else none
  | [] => none

/-- Go `winpath`: convert a WSL path to a Windows path.  On a mount-root
match the prefix `wslRoot<letter>` is replaced by `UPPER(letter):`
(`strings.ToUpper` on an ASCII lowercase letter is `Char.toUpper`); then
every `/` becomes `\`; a result starting with `\` is an error. -/
def winpath (root p : List Char) : Except Unit (List Char) :=
  let p1 :=
    match mountMatch root p with
    | some (c, rest) => Char.toUpper c :: ':' :: rest
    | none => p
  let q := backslashify p1
  if q.head? = some '\\' then .error () else .ok q

/-- The anchored match `^([A-Za-z]):` performed by `wslpath`. -/
def driveMatch (p : List Char) : Option (Char × List Char) :=
  match p with
  | c :: d :: rest =>
    if d = ':' ∧ (('A' ≤ c ∧ c ≤ 'Z') ∨ ('a' ≤ c ∧ c ≤ 'z')) then some (c, rest)
    else none
  | _ => none

/-- Go `wslpath`: convert a Windows path to a WSL path.  Every `\` becomes
`/`; then a `^([A-Za-z]):` prefix is replaced by `wslRoot<lowercased letter>`.
Always succeeds. -/
def wslpath (root p : List Char) : List Char :=
  let p1 := slashify p
  match driveMatch p1 with
  | some (c, rest) => root ++ Char.toLower c :: rest
  | none => p1

/-- String-level wrapper of `winpath` at the default mount root. -/
def winpathS (s : String) : Except Unit String :=
  (winpath mnt s.data).map (fun l => String.mk l)

/-- String-level wrapper of `wslpath` at the default mount root. -/
def wslpathS (s : String) : String := String.mk (wslpath mnt s.data)

/-- The six ASCII space characters trimmed by Go `strings.TrimSpace`
(`'\t'`, `'\n'`, `'\v'`, `'\f'`, `'\r'`, `' '`). -/
def goSpace (c : Char) : Bool :=
  c = ' ' || c = '\t' || c = '\n' || c = '\x0b' || c = '\x0c' || c = '\r'

/-- Go `strings.TrimSpace` (ASCII inputs). -/
def trimSpace (l : List Char) : List Char :=
  ((l.dropWhile goSpace).reverse.dropWhile goSpace).reverse

/-- The substring searched for by `getWSLRoot` via `strings.Contains`. -/
def rootPat : List Char := "root".data

/-- Processing of one matched line in `getWSLRoot`: split on `=`; anything
but exactly two parts returns the default; otherwise the second part is
whitespace-trimmed, and if it starts with `"` its first and last characters
are dropped.  Indexing `s[0]` on an empty trimmed value and slicing
`s[1:len(s)-1]` on the one-character value `"` are Go runtime panics,
modelled as `none`. -/
def rootLineValue (s : List Char) : Option (List Char) :=
  match splitOnChar '=' s with
  | [_, v] =>
    match trimSpace v with
    | [] => none
    | c :: cs =>
      if c = '"' then
        match cs with
        | [] => none
        | _ => some cs.dropLast
      else some (c :: cs)
  | _ => some mnt

/-- The line scan of `getWSLRoot`: first line containing `"root"` anywhere
is processed by `rootLineValue` and the scan stops; no match keeps the
default. -/
def scanRootLines : List (List Char) → Option (List Char)
  | [] => some mnt
  | s :: rest =>
    if rootPat <:+: s then rootLineValue s
    else scanRootLines rest

/-- Go `getWSLRoot`: `none` input means `/etc/wsl.conf` could not be read
(silently keeps the default); `none` output means the Go code panics. -/
def getWSLRoot (file : Option (List Char)) : Option (List Char) :=
  match file with
  | none => some mnt
  | some b => scanRootLines (splitOnChar '\n' b)

/-- Claim-side rendering of C5's discovery, following the claim's words:
scan line-by-line for an entry whose KEY (the part before `=`) contains
`"root"`; on a match take the value after `=` with surrounding whitespace
and one layer of quoting trimmed; absent or malformed files silently yield
the default; the function is total (the claim says discovery never fails). -/
def getWSLRootClaim (file : Option (List Char)) : List Char :=
  match file with
  | none => mnt
  | some b =>
    match (splitOnChar '\n' b).find? (fun l =>
        match splitOnChar '=' l with
        | k :: _ :: _ => decide (rootPat <:+: k)
        | _ => false) with
    | none => mnt
    | some l =>
      match splitOnChar '=' l with
      | _ :: vs =>
        let t := trimSpace (joinWith '=' vs)
        match t with
        | '"' :: cs => cs.dropLast
        | _ => t
      | [] => mnt

/-- Amended rendering of C5: first line containing `"root"` anywhere (not
just in the key) is taken, processed exactly as the code does
(`rootLineValue`), including the panic (`none`) on an empty or lone-quote
trimmed value; everything else yields the default. -/
def getWSLRootAmended (file : Option (List Char)) : Option (List Char) :=
  match file with
  | none => some mnt
  | some b =>
    match (splitOnChar '\n' b).find? (fun l => decide (rootPat <:+: l)) with
    | some l => rootLineValue l
    | none => some mnt

/-- The per-variable policy (`varopt` in the source). -/
inductive varopt where
  | varIgnore
  | varPass
  | varConvert
  | varPath
deriving DecidableEq, Repr

/-- A policy table: the Go map `map[string]varopt` as a lookup function. -/
def Table : Type := List Char → Option varopt

/-- The built-in `varopts` map literal. -/
def varopts : Table := fun k =>
  if k = "home".data then some .varIgnore
  else if k = "path".data then some .varIgnore
  else if k = "ifs".data then some .varIgnore
  else if k = "IFS".data then some .varIgnore
  else if k = "SHELL".data then some .varIgnore
  else if k = "prompt".data then some .varIgnore
  else if k = "EDITOR".data then some .varIgnore
  else if k = "PAGER".data then some .varIgnore
  else if k = "BROWSER".data then some .varIgnore
  else if k = "PWD".data then some .varConvert
  else if k = "HOME".data then some .varConvert
  else if k = "GOBIN".data then some .varConvert
  else if k = "GOPATH".data then some .varConvert
  else if k = "PATH".data then some .varPath
  else none

/-- Go map assignment `varopts[e] = opt`. -/
def updateTable (t : Table) (k : List Char) (o : varopt) : Table :=
  fun k' => if k' = k then some o else t k'

/-- The modifier switch on the first character of a trimmed `WENV` segment. -/
def parseSeg (e : List Char) : varopt × List Char :=
  match e with
  | '!' :: cs => (.varIgnore, cs)
  | '@' :: cs => (.varConvert, cs)
  | '#' :: cs => (.varPath, cs)
  | '$' :: cs => (.varPass, cs)
  | _ => (.varPass, e)

/-- The loop body of `getvaropts` over the comma-split segments: trim, skip
empty, parse the modifier, error on an empty remaining name, otherwise
assign into the table (later entries overwrite earlier ones). -/
def getvaroptsGo : List (List Char) → Table → Except Unit Table
  | [], t => .ok t
  | e :: rest, t =>
    let e' := trimSpace e
    if e' = [] then getvaroptsGo rest t
    else
      let po := parseSeg e'
      if po.2 = [] then .error ()
      else getvaroptsGo rest (updateTable t po.2 po.1)

/-- Go `getvaropts`, with the `WENV` value passed explicitly: empty value
leaves the table unchanged, otherwise the value is split on commas and
folded over the table. -/
def getvaropts (wenvValue : List Char) (t : Table) : Except Unit Table :=
  if wenvValue = [] then .ok t
  else getvaroptsGo (splitOnChar ',' wenvValue) t

/-- Observe the table produced by `getvaropts` at one key. -/
def tableOf (r : Except Unit Table) (k : List Char) : Option (Option varopt) :=
  r.toOption.map (fun t => t k)

/-- The `varPath` branch of the collector: split the value on `:`, convert
each segment with `winpath`, drop segments whose conversion fails
(`continue`), and rejoin the survivors with `;`. -/
def pathListValue (root v : List Char) : List Char :=
  joinWith ';' ((splitOnChar ':' v).filterMap (fun e => (winpath root e).toOption))

/-- One step of the collector switch: `none` means the variable is dropped. -/
def applyPolicy (root : List Char) (t : Table) (k v : List Char) : Option (List Char) :=
  match t k with
  | none => some v
  | some .varIgnore => none
  | some .varPass => some v
  | some .varConvert => (winpath root v).toOption
  | some .varPath => some (pathListValue root v)

/-- Go map assignment `vars[k] = v` on an association-list model of the map:
overwrite an existing binding, otherwise append. -/
def mapInsert (m : List (List Char × List Char)) (k v : List Char) :
    List (List Char × List Char) :=
  if m.any (fun p => p.1 = k) then m.map (fun p => if p.1 = k then (k, v) else p)
  else m ++ [(k, v)]

/-- The ambient-environment loop of `wenv` (entries given as name/value
pairs, as produced by splitting each `os.Environ()` entry on its first `=`). -/
def collectAmbientGo (root : List Char) (t : Table) :
    List (List Char × List Char) → List (List Char × List Char) →
    List (List Char × List Char)
  | [], acc => acc
  | (k, v) :: rest, acc =>
    match applyPolicy root t k v with
    | none => collectAmbientGo root t rest acc
    | some w => collectAmbientGo root t rest (mapInsert acc k w)

/-- The ambient-environment collection starting from the empty `vars` map. -/
def collectAmbient (root : List Char) (t : Table)
    (environ : List (List Char × List Char)) : List (List Char × List Char) :=
  collectAmbientGo root t environ []

/-- Go `strings.SplitN(s, "=", 2)` viewed as an optional split at the first
`=`: `none` when the string contains no `=`. -/
def splitEq : List Char → Option (List Char × List Char)
  | [] => none
  | c :: cs =>
    if c = '=' then some ([], cs)
    else (splitEq cs).map (fun pr => (c :: pr.1, pr.2))

/-- The leading `name=value` argument scan of `wenv`: collect arguments in
order while they contain `=`; the first argument without `=` starts the
target command line. -/
def parseLeading : List (List Char) → List (List Char × List Char) × List (List Char)
  | [] => ([], [])
  | a :: rest =>
    match splitEq a with
    | none => ([], a :: rest)
    | some kv =>
      let pr := parseLeading rest
      (kv :: pr.1, pr.2)

/-- Fold the explicit `name=value` pairs into the `vars` map in order. -/
def envOfPairs : List (List Char × List Char) → List (List Char × List Char) →
    List (List Char × List Char)
  | [], acc => acc
  | (k, v) :: rest, acc => envOfPairs rest (mapInsert acc k v)

/-- The environment-collection stage of `wenv`: `none` models the usage
error (exit 2) for an empty argument list or one consisting solely of
`name=value` tokens; otherwise the transmitted variable set and the target
command line.  With at least one explicit pair the ambient environment and
the policy table are never consulted. -/
def collectStage (root : List Char) (args : List (List Char))
    (environ : List (List Char × List Char)) (t : Table) :
    Option (List (List Char × List Char) × List (List Char)) :=
  match args with
  | [] => none
  | _ :: _ =>
    let pr := parseLeading args
    if pr.2 = [] then none
    else if pr.1 = [] then some (collectAmbient root t environ, pr.2)
    else some (envOfPairs pr.1 [], pr.2)

/-- Result of one `syscall.Exec` call: `errno e` is a `syscall.Errno`
(ENOMEM is 12), `other` any non-`Errno` error. -/
inductive ExecErr where
  | errno (e : Nat)
  | other
deriving DecidableEq, Repr

/-- Outcome of the exec loop: the process image was replaced, or `wenv`
returned an exit code. -/
inductive ExecOutcome where
  | replaced
  | exited (code : Nat)
deriving DecidableEq, Repr

/-- The retry loop around `syscall.Exec` in `wenv`, with the sequence of
exec results supplied as an oracle `f` (`f i` is the result of the call in
iteration `i`; `none` is success, which never returns).  The Go guard
`errno == syscall.ENOMEM && i < 10` is modelled by the structurally
decreasing count `r` of remaining retries (`r = 10 - i`).  Returns the
outcome and the number of exec calls performed. -/
def execLoopGo (f : Nat → Option ExecErr) : Nat → Nat → ExecOutcome × Nat
  | i, r =>
    match f i with
    | none => (.replaced, 1)
    | some e =>
      match r with
      | 0 => (.exited 1, 1)
      | r' + 1 =>
        if e = .errno 12 then
          let pr := execLoopGo f (i + 1) r'
          (pr.1, pr.2 + 1)
        else (.exited 1, 1)

/-- The full exec-with-retry of `wenv`: starts at iteration 0 with 10
retries available. -/
def execRetry (f : Nat → Option ExecErr) : ExecOutcome × Nat :=
  execLoopGo f 0 10

/-- Result of `cmd.Wait()` in the helper: success, an `exec.ExitError`
carrying the child's `syscall.WaitStatus` exit code (the `os` package
guarantees `Sys()` is a `WaitStatus`), or any other error. -/
inductive WaitRes where
  | ok
  | exitErr (status : Int)
  | otherErr
deriving DecidableEq, Repr

/-- The `exec.Cmd` structure built by the helper. -/
structure Cmd where
  path : List Char
  args : List (List Char)
  stdinInherited : Bool
  stdoutInherited : Bool
  stderrInherited : Bool
deriving DecidableEq, Repr

/-- The child-process specification the helper builds after shifting off the
handoff-file argument: `Path` is the target path, `Args` the remaining
arguments, and the three standard streams are the helper's own. -/
def helperCmd (rest : List (List Char)) : Cmd :=
  { path := rest.headD []
    args := rest.tail
    stdinInherited := true
    stdoutInherited := true
    stderrInherited := true }

/-- Outcomes of the helper's fallible steps, supplied as an oracle. -/
structure HelperEffects where
  openOk : Bool
  decodeOk : Bool
  closeOk : Bool
  removeOk : Bool
  setenvOk : Bool
  startOk : Bool
  wait : WaitRes

/-- Go `filepath.Base` on Windows, restricted to the non-degenerate inputs
exercised here: the final path component after the last `/` or `\`. -/
def baseName (p : List Char) : List Char :=
  (p.reverse.takeWhile (fun c => ¬(c = '/' ∨ c = '\\'))).reverse

/-- The handoff-file name check prefix in the helper. -/
def fileprefixConst : List Char := "wenv".data

/-- The helper's `main`, with `argv` the arguments after the program name
and the fallible steps given by `eff`.  `log.Fatal*` exits with code 1;
a failed `cmd.Start()` exits 126; a `cmd.Wait()` `ExitError` propagates the
child's exit status verbatim; any other wait error exits 126; a clean wait
exits 0. -/
def helperMain (argv : List (List Char)) (eff : HelperEffects) : Int :=
  if argv.length < 3 then 1
  else
    match argv with
    | [] => 1
    | file :: _rest =>
      if ¬(fileprefixConst.isPrefixOf (baseName file)) then 1
      else if ¬eff.openOk then 1
      else if ¬eff.decodeOk then 1
      else if ¬eff.closeOk then 1
      else if ¬eff.removeOk then 1
      else if ¬eff.setenvOk then 1
      else if ¬eff.startOk then 126
      else
        match eff.wait with
        | .ok => 0
        | .exitErr st => st
        | .otherErr => 126

/-! ### Helper lemmas -/

theorem char_le_iff {a b : Char} : a ≤ b ↔ a.toNat ≤ b.toNat := Iff.rfl

theorem char_eq_iff {a b : Char} : a = b ↔ a.toNat = b.toNat := by
  constructor
  · intro h; rw [h]
  · intro h; rw [← Char.ofNat_toNat a, h, Char.ofNat_toNat]

theorem char_toNat_ofNat {n : Nat} (h : n < 55296) : (Char.ofNat n).toNat = n := by
  rw [Char.ofNat, dif_pos (Or.inl (by simpa using h))]
  simp only [Char.ofNatAux, Char.toNat, UInt32.ofNat', BitVec.ofNatLt]
  rfl

theorem toNat_lower_a : ('a' : Char).toNat = 97 := rfl

theorem toNat_lower_z : ('z' : Char).toNat = 122 := rfl

theorem toNat_upper_A : ('A' : Char).toNat = 65 := rfl

theorem toNat_upper_Z : ('Z' : Char).toNat = 90 := rfl

theorem az_toNat {c : Char} (h1 : 'a' ≤ c) (h2 : c ≤ 'z') :
    97 ≤ c.toNat ∧ c.toNat ≤ 122 := by
  have hl := char_le_iff.mp h1
  have hu := char_le_iff.mp h2
  rw [toNat_lower_a] at hl
  rw [toNat_lower_z] at hu
  exact ⟨hl, hu⟩

theorem AZ_toNat {c : Char} (h1 : 'A' ≤ c) (h2 : c ≤ 'Z') :
    65 ≤ c.toNat ∧ c.toNat ≤ 90 := by
  have hl := char_le_iff.mp h1
  have hu := char_le_iff.mp h2
  rw [toNat_upper_A] at hl
  rw [toNat_upper_Z] at hu
  exact ⟨hl, hu⟩

theorem toUpper_toNat {c : Char} (h1 : 'a' ≤ c) (h2 : c ≤ 'z') :
    (Char.toUpper c).toNat = c.toNat - 32 := by
  obtain ⟨hl, hu⟩ := az_toNat h1 h2
  rw [Char.toUpper, if_pos (by omega), char_toNat_ofNat (by omega)]

theorem toLower_toUpper {c : Char} (h1 : 'a' ≤ c) (h2 : c ≤ 'z') :
    Char.toLower (Char.toUpper c) = c := by
  obtain ⟨hl, hu⟩ := az_toNat h1 h2
  rw [Char.toUpper, if_pos (by omega), Char.toLower, char_toNat_ofNat (by omega),
    if_pos (by omega)]
  have h3 : c.toNat - 32 + 32 = c.toNat := by omega
  rw [h3, Char.ofNat_toNat]

theorem toUpper_AZ {c : Char} (h1 : 'a' ≤ c) (h2 : c ≤ 'z') :
    'A' ≤ Char.toUpper c ∧ Char.toUpper c ≤ 'Z' := by
  obtain ⟨hl, hu⟩ := az_toNat h1 h2
  constructor <;> rw [char_le_iff]
  · rw [toNat_upper_A, toUpper_toNat h1 h2]; omega
  · rw [toNat_upper_Z, toUpper_toNat h1 h2]; omega

theorem toLower_toNat_of_alpha {c : Char}
    (h : ('A' ≤ c ∧ c ≤ 'Z') ∨ ('a' ≤ c ∧ c ≤ 'z')) :
    97 ≤ (Char.toLower c).toNat ∧ (Char.toLower c).toNat ≤ 122 := by
  rcases h with ⟨h1, h2⟩ | ⟨h1, h2⟩
  · obtain ⟨hl, hu⟩ := AZ_toNat h1 h2
    rw [Char.toLower, if_pos (by omega), char_toNat_ofNat (by omega)]
    omega
  · obtain ⟨hl, hu⟩ := az_toNat h1 h2
    rw [Char.toLower, if_neg (by omega)]
    omega

theorem schar_bchar (c : Char) : schar (bchar c) = schar c := by
  unfold bchar schar
  by_cases h1 : c = '/'
  · simp [h1]
  · by_cases h2 : c = '\\' <;> simp [h1, h2]

theorem slashify_backslashify (l : List Char) : slashify (backslashify l) = slashify l := by
  induction l with
  | nil => rfl
  | cons c cs ih =>
    simp only [slashify, backslashify, List.map_cons] at ih ⊢
    rw [schar_bchar]
    exact congrArg _ ih

theorem bchar_eq_backslash_iff {c : Char} : bchar c = '\\' ↔ (c = '/' ∨ c = '\\') := by
  unfold bchar
  by_cases h : c = '/' <;> simp [h]

theorem backslash_not_mem_slashify (l : List Char) : '\\' ∉ slashify l := by
  induction l with
  | nil => simp [slashify]
  | cons c cs ih =>
    simp only [slashify, List.map_cons, List.mem_cons] at ih ⊢
    rintro (h | h)
    · rw [schar] at h
      by_cases hc : c = '\\'
      · rw [if_pos hc] at h
        exact absurd h (by decide)
      · rw [if_neg hc] at h
        exact hc h.symm
    · exact ih h

theorem slashify_of_not_mem {l : List Char} (h : '\\' ∉ l) : slashify l = l := by
  induction l with
  | nil => rfl
  | cons c cs ih =>
    simp at h
    simp [slashify, schar, Ne.symm h.1] at ih ⊢
    exact ih h.2

theorem mountMatch_some_iff {root p : List Char} {c : Char} {rest : List Char} :
    mountMatch root p = some (c, rest) ↔
      p = root ++ c :: rest ∧ ('a' ≤ c ∧ c ≤ 'z') ∧
        (rest = [] ∨ rest.head? = some '/') := by
  constructor
  · intro h
    unfold mountMatch at h
    split at h
    next c' rest' hd =>
      split at h
      next hcond =>
        obtain ⟨hc, hr⟩ : c' = c ∧ rest' = rest := by
          have h2 := Option.some.inj h
          exact ⟨congrArg Prod.fst h2, congrArg Prod.snd h2⟩
        subst hc; subst hr
        obtain ⟨⟨t, ht⟩, haz, hh⟩ := hcond
        have hdrop : p.drop root.length = t := by
          rw [← ht, List.drop_left]
        rw [hdrop] at hd
        exact ⟨by rw [← ht, hd], haz, hh⟩
      next => exact absurd h (by simp)
    next hd => exact absurd h (by simp)
  · rintro ⟨hp, haz, hh⟩
    subst hp
    unfold mountMatch
    rw [List.drop_left]
    show (if root <+: root ++ c :: rest ∧ ('a' ≤ c ∧ c ≤ 'z') ∧
        (rest = [] ∨ rest.head? = some '/') then some (c, rest) else none) =
      some (c, rest)
    rw [if_pos ⟨⟨c :: rest, rfl⟩, haz, hh⟩]

theorem winpath_of_mountMatch {root p : List Char} {c : Char} {rest : List Char}
    (h : mountMatch root p = some (c, rest)) :
    winpath root p = .ok (Char.toUpper c :: ':' :: backslashify rest) := by
  obtain ⟨-, ⟨h1, h2⟩, -⟩ := mountMatch_some_iff.mp h
  have hne : Char.toUpper c ≠ '\\' := by
    rw [Ne, char_eq_iff, toUpper_toNat h1 h2]
    obtain ⟨hl, hu⟩ := az_toNat h1 h2
    rw [show ('\\' : Char).toNat = 92 from rfl]
    omega
  have hslash : bchar (Char.toUpper c) = Char.toUpper c := by
    rw [bchar, if_neg]
    rw [char_eq_iff, toUpper_toNat h1 h2]
    obtain ⟨hl, hu⟩ := az_toNat h1 h2
    intro heq
    rw [show ('/' : Char).toNat = 47 from rfl] at heq
    omega
  have hq : winpath root p =
      (if (backslashify (Char.toUpper c :: ':' :: rest)).head? = some '\\'
       then .error () else .ok (backslashify (Char.toUpper c :: ':' :: rest))) := by
    unfold winpath
    rw [h]
  rw [hq]
  show (if (bchar (Char.toUpper c) :: ':' :: backslashify rest).head? = some '\\'
        then Except.error () else
          Except.ok (bchar (Char.toUpper c) :: ':' :: backslashify rest)) = _
  rw [hslash, if_neg (by simp [hne])]

theorem winpath_of_no_mountMatch {root p : List Char}
    (h : mountMatch root p = none) :
    winpath root p =
      if p.head? = some '/' ∨ p.head? = some '\\' then .error ()
      else .ok (backslashify p) := by
  have hq : winpath root p =
      (if (backslashify p).head? = some '\\' then .error ()
       else .ok (backslashify p)) := by
    unfold winpath
    rw [h]
  rw [hq]
  rcases p with _ | ⟨c, cs⟩
  · simp [backslashify]
  · simp only [backslashify, List.map_cons, List.head?_cons]
    by_cases hc : bchar c = '\\'
    · rw [if_pos (by simp [hc]), if_pos (by simpa using bchar_eq_backslash_iff.mp hc)]
    · rw [if_neg (by simp [hc]),
        if_neg (by simpa using fun h1 => hc (bchar_eq_backslash_iff.mpr h1))]

theorem mountMatch_mnt_none_of_head {p : List Char} (h : p.head? ≠ some '/') :
    mountMatch mnt p = none := by
  rcases hm : mountMatch mnt p with _ | ⟨c, rest⟩
  · rfl
  · exfalso
    obtain ⟨hp, -, -⟩ := mountMatch_some_iff.mp hm
    exact h (by rw [hp]; rfl)

theorem slashify_mnt : slashify mnt = mnt := by decide

theorem backslash_not_mem_mnt : '\\' ∉ mnt := by decide

theorem driveMatch_cons_cons {c d : Char} {rest : List Char} :
    driveMatch (c :: d :: rest) =
      if d = ':' ∧ (('A' ≤ c ∧ c ≤ 'Z') ∨ ('a' ≤ c ∧ c ≤ 'z')) then some (c, rest)
      else none := rfl

theorem driveMatch_mnt_append (l : List Char) : driveMatch (mnt ++ l) = none := by
  show driveMatch ('/' :: 'm' :: ("nt/".data ++ l)) = none
  rw [driveMatch_cons_cons, if_neg]
  rintro ⟨h, -⟩
  exact absurd h (by decide)

theorem wslpath_eq (root p : List Char) :
    wslpath root p =
      match driveMatch (slashify p) with
      | some (c, rest) => root ++ Char.toLower c :: rest
      | none => slashify p := rfl

/-! ### C1: forward conversion `winpath` -/

/-- Claim C1: `winpath` rewrites a drive prefix exactly when the path
matches `^/mnt/[a-z](/|$)` (captured by `mountMatch`), replacing the prefix
with the uppercased letter and `:` and turning every `/` into `\`; a result
beginning with `\` (equivalently, an unmatched input beginning with `/` or
`\`) is a conversion error; no other input has its prefix rewritten; and
`winpath("/mnt/c/Users") = "C:\Users"` while `winpath("/not/mounted")`
fails. -/
theorem c1_winpath_drive_rewrite :
    (∀ p c rest, mountMatch mnt p = some (c, rest) →
      winpath mnt p = .ok (Char.toUpper c :: ':' :: backslashify rest))
    ∧ (∀ p c rest, mountMatch mnt p = some (c, rest) ↔
        p = mnt ++ c :: rest ∧ ('a' ≤ c ∧ c ≤ 'z') ∧
          (rest = [] ∨ rest.head? = some '/'))
    ∧ (∀ p, mountMatch mnt p = none →
        winpath mnt p =
          if p.head? = some '/' ∨ p.head? = some '\\' then .error ()
          else .ok (backslashify p))
    ∧ winpathS "/mnt/c/Users" = .ok "C:\\Users"
    ∧ winpathS "/not/mounted" = .error () := by
  refine ⟨?_, ?_, ?_, rfl, rfl⟩
  · intro p c rest h; exact winpath_of_mountMatch h
  · intro p c rest; exact mountMatch_some_iff
  · intro p h; exact winpath_of_no_mountMatch h

/-- Witness for C1 at concrete inputs. -/
theorem c1_winpath_drive_rewrite_witness :
    winpath mnt "/mnt/d/x".data = .ok "D:\\x".data
    ∧ winpath mnt "rel".data = .ok "rel".data := by
  constructor
  · have h : mountMatch mnt "/mnt/d/x".data = some ('d', "/x".data) := by decide
    rw [c1_winpath_drive_rewrite.1 "/mnt/d/x".data 'd' "/x".data h]
    rfl
  · have h : mountMatch mnt "rel".data = none := by decide
    rw [c1_winpath_drive_rewrite.2.2.1 "rel".data h]
    rfl

/-! ### C9 (amended): inputs that begin with neither separator -/

/-- Counterexample to claim C9 as stated: the input `"\x"` does not begin
with `/`, yet `winpath` rejects it (the claim says every input not
beginning with `/` succeeds). -/
theorem c9_cex_backslash_input :
    "\\x".data.head? ≠ some '/' ∧ winpath mnt "\\x".data = .error () := by
  constructor
  · decide
  · rfl

/-- Claim C9 as amended: under the default mount root, every input that
begins with neither `/` nor `\` is converted successfully to the input with
every `/` replaced by `\`, and never has a drive prefix introduced
(`mountMatch` does not fire); relative paths of that shape and the empty
string are never rejected. -/
theorem c9_relative_paths_succeed :
    ∀ p : List Char, p.head? ≠ some '/' → p.head? ≠ some '\\' →
      winpath mnt p = .ok (backslashify p) ∧ mountMatch mnt p = none := by
  intro p h1 h2
  have hm := mountMatch_mnt_none_of_head h1
  refine ⟨?_, hm⟩
  rw [winpath_of_no_mountMatch hm, if_neg]
  rintro (h | h)
  · exact h1 h
  · exact h2 h

/-- Witness for C9 at concrete inputs, including the empty string. -/
theorem c9_relative_paths_succeed_witness :
    winpath mnt "rel/path".data = .ok "rel\\path".data
    ∧ winpath mnt [] = .ok [] := by
  constructor
  · exact (c9_relative_paths_succeed "rel/path".data (by decide) (by decide)).1
  · exact (c9_relative_paths_succeed [] (by decide) (by decide)).1

/-! ### C3: round trip `wslpath ∘ winpath` -/

theorem schar_of_ne {c : Char} (h : c ≠ '\\') : schar c = c := by
  rw [schar, if_neg h]

theorem az_ne_backslash {c : Char} (h1 : 'a' ≤ c) (h2 : c ≤ 'z') : c ≠ '\\' := by
  obtain ⟨hl, hu⟩ := az_toNat h1 h2
  rw [Ne, char_eq_iff, show ('\\' : Char).toNat = 92 from rfl]
  omega

theorem toUpper_ne_backslash {c : Char} (h1 : 'a' ≤ c) (h2 : c ≤ 'z') :
    Char.toUpper c ≠ '\\' := by
  obtain ⟨hl, hu⟩ := az_toNat h1 h2
  rw [Ne, char_eq_iff, toUpper_toNat h1 h2, show ('\\' : Char).toNat = 92 from rfl]
  omega

theorem driveMatch_some_iff {p : List Char} {c : Char} {rest : List Char} :
    driveMatch p = some (c, rest) ↔
      p = c :: ':' :: rest ∧ (('A' ≤ c ∧ c ≤ 'Z') ∨ ('a' ≤ c ∧ c ≤ 'z')) := by
  constructor
  · intro h
    unfold driveMatch at h
    split at h
    next c' d rest' =>
      split at h
      next hcond =>
        obtain ⟨hc, hr⟩ : c' = c ∧ rest' = rest := by
          have h2 := Option.some.inj h
          exact ⟨congrArg Prod.fst h2, congrArg Prod.snd h2⟩
        subst hc; subst hr
        exact ⟨by rw [hcond.1], hcond.2⟩
      next => exact absurd h (by simp)
    next => exact absurd h (by simp)
  · rintro ⟨hp, halpha⟩
    subst hp
    rw [driveMatch_cons_cons, if_pos ⟨rfl, halpha⟩]

/-- Claim C3: whenever `winpath` succeeds on `v`, converting the result back
with `wslpath` yields `v` modulo the normalization `wslpath` itself performs
(separator and mount-root prefix normalization): the round trip equals the
normalization of `v`, and for well-formed inputs (no `\` and no `^[A-Za-z]:`
drive prefix — in particular every mount-rooted path) it is exactly `v`. -/
theorem c3_roundtrip :
    ∀ v w : List Char, winpath mnt v = .ok w →
      wslpath mnt w = wslpath mnt v
      ∧ ('\\' ∉ v → driveMatch v = none → wslpath mnt w = v) := by
  intro v w h
  have main : wslpath mnt w = wslpath mnt v := by
    rcases hm : mountMatch mnt v with _ | ⟨c, rest⟩
    · rw [winpath_of_no_mountMatch hm] at h
      by_cases hcond : v.head? = some '/' ∨ v.head? = some '\\'
      · rw [if_pos hcond] at h
        exact absurd h (by simp)
      · rw [if_neg hcond] at h
        have hw : backslashify v = w := Except.ok.inj h
        rw [← hw, wslpath_eq, wslpath_eq, slashify_backslashify]
    · obtain ⟨hv, ⟨h1, h2⟩, -⟩ := mountMatch_some_iff.mp hm
      rw [winpath_of_mountMatch hm] at h
      have hw : Char.toUpper c :: ':' :: backslashify rest = w := Except.ok.inj h
      have hcne : schar c = c := schar_of_ne (az_ne_backslash h1 h2)
      have hlhs : wslpath mnt w = mnt ++ c :: slashify rest := by
        rw [← hw, wslpath_eq]
        have hsw : slashify (Char.toUpper c :: ':' :: backslashify rest) =
            Char.toUpper c :: ':' :: slashify rest := by
          show schar (Char.toUpper c) :: ':' :: slashify (backslashify rest) =
            Char.toUpper c :: ':' :: slashify rest
          rw [slashify_backslashify rest, schar_of_ne (toUpper_ne_backslash h1 h2)]
        rw [hsw, driveMatch_cons_cons, if_pos ⟨rfl, Or.inl (toUpper_AZ h1 h2)⟩]
        show mnt ++ (Char.toUpper c).toLower :: slashify rest = mnt ++ c :: slashify rest
        rw [toLower_toUpper h1 h2]
      have hrhs : wslpath mnt v = mnt ++ c :: slashify rest := by
        rw [hv, wslpath_eq]
        have hsv : slashify (mnt ++ c :: rest) = mnt ++ c :: slashify rest := by
          simp only [slashify, List.map_append, List.map_cons]
          rw [show List.map schar mnt = mnt from slashify_mnt]
          rw [show schar c = c from hcne]
        rw [hsv, driveMatch_mnt_append]
      rw [hlhs, hrhs]
  refine ⟨main, fun hb hd => ?_⟩
  rw [main, wslpath_eq, slashify_of_not_mem hb, hd]

/-- Witness for C3 at the spec's example `"/mnt/c/Users"`. -/
theorem c3_roundtrip_witness :
    wslpath mnt "C:\\Users".data = wslpath mnt "/mnt/c/Users".data
    ∧ wslpath mnt "C:\\Users".data = "/mnt/c/Users".data := by
  have h := c3_roundtrip "/mnt/c/Users".data "C:\\Users".data rfl
  exact ⟨h.1, h.2 (by decide) (by decide)⟩

/-! ### C10: `wslpath` is total and idempotent -/

theorem toLower_ne_backslash {c : Char}
    (h : ('A' ≤ c ∧ c ≤ 'Z') ∨ ('a' ≤ c ∧ c ≤ 'z')) : Char.toLower c ≠ '\\' := by
  obtain ⟨hl, hu⟩ := toLower_toNat_of_alpha h
  rw [Ne, char_eq_iff, show ('\\' : Char).toNat = 92 from rfl]
  omega

/-- Claim C10: under the default mount root, `wslpath` is total (it is a
function into paths, with no error case) and idempotent: applying it twice
gives the same result as applying it once. -/
theorem c10_wslpath_idempotent :
    ∀ p : List Char, wslpath mnt (wslpath mnt p) = wslpath mnt p := by
  intro p
  rcases hd : driveMatch (slashify p) with _ | ⟨c, rest⟩
  · rw [wslpath_eq mnt p, hd, wslpath_eq,
      slashify_of_not_mem (backslash_not_mem_slashify p), hd]
  · obtain ⟨hsp, halpha⟩ := driveMatch_some_iff.mp hd
    rw [wslpath_eq mnt p, hd, wslpath_eq]
    have hb : '\\' ∉ mnt ++ Char.toLower c :: rest := by
      simp only [List.mem_append, List.mem_cons]
      rintro (h | h | h)
      · exact backslash_not_mem_mnt h
      · exact toLower_ne_backslash halpha h.symm
      · have hmem := backslash_not_mem_slashify p
        rw [hsp] at hmem
        simp only [List.mem_cons] at hmem
        exact hmem (Or.inr (Or.inr h))
    rw [slashify_of_not_mem hb, driveMatch_mnt_append]

/-! ### C5 (corrected): mount-root discovery -/

theorem scanRootLines_eq_find (ls : List (List Char)) :
    scanRootLines ls =
      match ls.find? (fun l => decide (rootPat <:+: l)) with
      | some l => rootLineValue l
      | none => some mnt := by
  induction ls with
  | nil => rfl
  | cons s rest ih =>
    by_cases h : rootPat <:+: s
    · rw [scanRootLines, if_pos h]
      simp [List.find?_cons, h]
    · rw [scanRootLines, if_neg h, ih]
      simp [List.find?_cons, h]

/-- Counterexample to claim C5 as stated: the code matches any LINE
containing `"root"`, not just a key containing it (on `"a=broot"` the key
is `a` but the value is taken anyway), and the discovery is not total: a
matched line with an empty value after `=` makes the Go code panic
(`s[0]` on an empty string), modelled as `none`. -/
theorem c5_cex_line_match_and_panic :
    getWSLRoot (some "a=broot".data) = some "broot".data
    ∧ getWSLRootClaim (some "a=broot".data) = mnt
    ∧ "broot".data ≠ mnt
    ∧ getWSLRoot (some "root=".data) = none := by
  refine ⟨by decide, by decide, by decide, by decide⟩

/-- Claim C5 as amended: discovery reads the configuration file and takes
the FIRST line containing the substring `"root"` anywhere in the line; on a
match it splits the line on `=`, keeps the default `"/mnt/"` unless there
are exactly two parts, and otherwise takes the value with surrounding
whitespace trimmed and, when it starts with `"`, its first and last
characters removed; an absent file or a file with no matching line silently
yields the default; but a matching line whose trimmed value is empty (or a
lone `"`) crashes the program instead of falling back. -/
theorem c5_mount_root_discovery :
    (∀ file, getWSLRoot file = getWSLRootAmended file)
    ∧ getWSLRoot none = some mnt
    ∧ getWSLRoot (some "x=1\n[automount]\nroot = /media/\nmore".data) =
        some "/media/".data
    ∧ getWSLRoot (some "root = \"/data/\"".data) = some "/data/".data
    ∧ getWSLRoot (some "no match here".data) = some mnt := by
  refine ⟨?_, rfl, by decide, by decide, by decide⟩
  intro file
  rcases file with _ | b
  · rfl
  · exact scanRootLines_eq_find _

/-- Witness for C5 (amended) at a concrete file. -/
theorem c5_mount_root_discovery_witness :
    getWSLRoot (some "root = /media/".data) =
      getWSLRootAmended (some "root = /media/".data) :=
  c5_mount_root_discovery.1 (some "root = /media/".data)

/-! ### C2: PathList collection -/

/-- Claim C2: for a variable whose policy is `varPath`, the collector binds
it to the value obtained by splitting on `:`, converting each segment with
`winpath`, dropping the segments whose conversion fails, and rejoining the
survivors with `;`; a value all of whose segments fail still yields a
binding (with the empty value), never an error; the example
`"/mnt/c/a:/mnt/d/b"` is transmitted as `"C:\a;D:\b"`. -/
theorem c2_pathlist_collection :
    (∀ t : Table, ∀ k v, t k = some .varPath →
      collectAmbient mnt t [(k, v)] =
        [(k, joinWith ';'
          ((splitOnChar ':' v).filterMap (fun e => (winpath mnt e).toOption)))])
    ∧ (∀ v, (∀ s ∈ splitOnChar ':' v, (winpath mnt s).toOption = none) →
        pathListValue mnt v = [])
    ∧ collectAmbient mnt varopts [("PATH".data, "/mnt/c/a:/mnt/d/b".data)] =
        [("PATH".data, "C:\\a;D:\\b".data)]
    ∧ collectAmbient mnt varopts [("PATH".data, "/mnt/c/a:/bad:/mnt/d/b".data)] =
        [("PATH".data, "C:\\a;D:\\b".data)]
    ∧ collectAmbient mnt varopts [("PATH".data, "/x:/y".data)] =
        [("PATH".data, [])] := by
  refine ⟨?_, ?_, by decide, by decide, by decide⟩
  · intro t k v h
    simp [collectAmbient, collectAmbientGo, applyPolicy, h, mapInsert, pathListValue]
  · intro v h
    unfold pathListValue
    rw [List.filterMap_eq_nil_iff.mpr h]
    rfl

/-- Witness for C2 at concrete inputs. -/
theorem c2_pathlist_collection_witness :
    collectAmbient mnt varopts [("PATH".data, "/mnt/c/a:/mnt/d/b".data)] =
      [("PATH".data, joinWith ';'
        ((splitOnChar ':' "/mnt/c/a:/mnt/d/b".data).filterMap
          (fun e => (winpath mnt e).toOption)))]
    ∧ pathListValue mnt "/x:/y".data = [] :=
  ⟨c2_pathlist_collection.1 varopts "PATH".data "/mnt/c/a:/mnt/d/b".data (by decide),
   c2_pathlist_collection.2.1 "/x:/y".data (by decide)⟩

/-! ### C6: policy resolution from `WENV` -/

/-- Claim C6: `getvaropts` splits the override string on commas, trims each
segment, skips empty segments, maps a leading `!` to Ignore, `@` to
Convert, `#` to PathList, `$` or no modifier to Pass, and later entries
overwrite earlier ones (segment processing is a left fold of table
updates, and an update at a name shadows any earlier binding); in
particular `"!FOO, @BAR, #BAZ, $PATH"` resolves FOO to Ignore, BAR to
Convert, BAZ to PathList and PATH to Pass, overriding the built-in PathList
default for PATH. -/
theorem c6_policy_resolution :
    tableOf (getvaropts "!FOO, @BAR, #BAZ, $PATH".data varopts) "FOO".data =
      some (some .varIgnore)
    ∧ tableOf (getvaropts "!FOO, @BAR, #BAZ, $PATH".data varopts) "BAR".data =
        some (some .varConvert)
    ∧ tableOf (getvaropts "!FOO, @BAR, #BAZ, $PATH".data varopts) "BAZ".data =
        some (some .varPath)
    ∧ tableOf (getvaropts "!FOO, @BAR, #BAZ, $PATH".data varopts) "PATH".data =
        some (some .varPass)
    ∧ varopts "PATH".data = some .varPath
    ∧ (∀ l1 l2 : List (List Char), ∀ t : Table,
        getvaroptsGo (l1 ++ l2) t =
          (getvaroptsGo l1 t).bind (fun t' => getvaroptsGo l2 t'))
    ∧ (∀ e : List Char, ∀ rest : List (List Char), ∀ t : Table,
        trimSpace e = [] → getvaroptsGo (e :: rest) t = getvaroptsGo rest t)
    ∧ (∀ name, parseSeg ('!' :: name) = (.varIgnore, name))
    ∧ (∀ name, parseSeg ('@' :: name) = (.varConvert, name))
    ∧ (∀ name, parseSeg ('#' :: name) = (.varPath, name))
    ∧ (∀ name, parseSeg ('$' :: name) = (.varPass, name))
    ∧ (∀ t : Table, ∀ k o, updateTable t k o k = some o)
    ∧ (∀ t : Table, ∀ k o k', k' ≠ k → updateTable t k o k' = t k') := by
  refine ⟨by decide, by decide, by decide, by decide, by decide,
    ?_, ?_, fun name => rfl, fun name => rfl, fun name => rfl, fun name => rfl,
    ?_, ?_⟩
  · intro l1 l2 t
    induction l1 generalizing t with
    | nil => rfl
    | cons e rest ih =>
      show getvaroptsGo (e :: (rest ++ l2)) t = _
      by_cases h : trimSpace e = []
      · rw [getvaroptsGo, getvaroptsGo]
        simp only [h, if_pos rfl]
        exact ih t
      · rw [getvaroptsGo, getvaroptsGo]
        simp only [if_neg h]
        by_cases hn : (parseSeg (trimSpace e)).2 = []
        · simp only [if_pos hn]
          rfl
        · simp only [if_neg hn]
          exact ih _
  · intro e rest t h
    rw [getvaroptsGo]
    simp [h]
  · intro t k o
    unfold updateTable
    rw [if_pos rfl]
  · intro t k o k' h
    unfold updateTable
    rw [if_neg h]

/-- Witness for C6: later entries overwrite earlier ones at a concrete
input, via the fold-append decomposition and the update laws. -/
theorem c6_policy_resolution_witness :
    getvaroptsGo (["!A".data] ++ ["@A".data]) varopts =
      (getvaroptsGo ["!A".data] varopts).bind
        (fun t' => getvaroptsGo ["@A".data] t')
    ∧ updateTable varopts "A".data .varConvert "A".data = some .varConvert
    ∧ updateTable varopts "A".data .varConvert "B".data = varopts "B".data :=
  ⟨c6_policy_resolution.2.2.2.2.2.1 ["!A".data] ["@A".data] varopts,
   c6_policy_resolution.2.2.2.2.2.2.2.2.2.2.2.1 varopts "A".data .varConvert,
   c6_policy_resolution.2.2.2.2.2.2.2.2.2.2.2.2 varopts "A".data .varConvert
     "B".data (by decide)⟩

/-! ### C7: explicit `name=value` arguments bypass policy -/

/-- Claim C7: when at least one leading `name=value` argument is present,
the transmitted variable set is exactly those pairs (folded into the map
verbatim): the result does not depend on the policy table or the ambient
environment, and no translation is applied; in particular
`wenv FOO=/mnt/c/x cmd.exe` transmits exactly `{FOO: "/mnt/c/x"}`,
unconverted, for every ambient environment and policy table. -/
theorem c7_explicit_vars_bypass :
    (∀ args environ, ∀ t : Table, ∀ ex rest,
      parseLeading args = (ex, rest) → ex ≠ [] → rest ≠ [] →
      collectStage mnt args environ t = some (envOfPairs ex [], rest))
    ∧ (∀ environ, ∀ t : Table,
        collectStage mnt ["FOO=/mnt/c/x".data, "cmd.exe".data] environ t =
          some ([("FOO".data, "/mnt/c/x".data)], ["cmd.exe".data])) := by
  constructor
  · intro args environ t ex rest h hex hrest
    rcases args with _ | ⟨a, args'⟩
    · rw [parseLeading] at h
      obtain ⟨h1, -⟩ := Prod.mk.injEq .. ▸ h
      exact absurd h1.symm hex
    · show (let pr := parseLeading (a :: args')
            if pr.2 = [] then none
            else if pr.1 = [] then some (collectAmbient mnt t environ, pr.2)
            else some (envOfPairs pr.1 [], pr.2)) = _
      rw [h]
      simp only [if_neg hrest, if_neg hex]
  · intro environ t
    rfl

/-- Witness for C7 (general part) at concrete arguments. -/
theorem c7_explicit_vars_bypass_witness :
    collectStage mnt ["A=1".data, "run".data] [("B".data, "2".data)] varopts =
      some (envOfPairs [("A".data, "1".data)] [], ["run".data]) :=
  c7_explicit_vars_bypass.1 ["A=1".data, "run".data] [("B".data, "2".data)]
    varopts [("A".data, "1".data)] ["run".data] (by decide) (by decide) (by decide)

/-! ### C4: exec-retry discipline -/

/-- With an oracle that always reports ENOMEM, the loop exits after using
every retry: starting with `r` retries available it performs `r + 1` exec
calls and returns exit code 1. -/
theorem execLoopGo_all_enomem (f : Nat → Option ExecErr)
    (h : ∀ i, f i = some (.errno 12)) :
    ∀ r i, execLoopGo f i r = (.exited 1, r + 1) := by
  intro r
  induction r with
  | zero =>
    intro i
    rw [execLoopGo, h i]
  | succ r' ih =>
    intro i
    rw [execLoopGo, h i]
    show (if ExecErr.errno 12 = .errno 12 then
            let pr := execLoopGo f (i + 1) r'
            (pr.1, pr.2 + 1)
          else (.exited 1, 1)) = (ExecOutcome.exited 1, r' + 1 + 1)
    rw [if_pos rfl, ih (i + 1)]

/-- Claim C4: when `syscall.Exec` keeps failing with ENOMEM (errno 12) the
launcher retries it up to 10 times — 11 exec calls in total — before
surfacing the failure as exit code 1; any failure other than ENOMEM at the
first call is immediately fatal with exit code 1 after a single exec call;
a successful exec replaces the process image at once. -/
theorem c4_exec_retry :
    (∀ f : Nat → Option ExecErr, (∀ i, f i = some (.errno 12)) →
      execRetry f = (.exited 1, 11))
    ∧ (∀ f : Nat → Option ExecErr, ∀ e, f 0 = some e → e ≠ .errno 12 →
        execRetry f = (.exited 1, 1))
    ∧ (∀ f : Nat → Option ExecErr, ∀ i r, f i = none →
        execLoopGo f i r = (.replaced, 1)) := by
  refine ⟨?_, ?_, ?_⟩
  · intro f h
    exact execLoopGo_all_enomem f h 10 0
  · intro f e h he
    rw [execRetry, execLoopGo, h]
    show (if e = .errno 12 then
            let pr := execLoopGo f 1 9
            (pr.1, pr.2 + 1)
          else (.exited 1, 1)) = (ExecOutcome.exited 1, 1)
    rw [if_neg he]
  · intro f i r h
    rw [execLoopGo, h]

/-- Witness for C4 at concrete oracles. -/
theorem c4_exec_retry_witness :
    execRetry (fun _ => some (.errno 12)) = (.exited 1, 11)
    ∧ execRetry (fun _ => some .other) = (.exited 1, 1)
    ∧ execLoopGo (fun _ => none) 0 10 = (.replaced, 1) :=
  ⟨c4_exec_retry.1 _ (fun _ => rfl),
   c4_exec_retry.2.1 _ .other rfl (by decide),
   c4_exec_retry.2.2 _ 0 10 rfl⟩

/-! ### C8: helper child process and exit propagation -/

/-- Claim C8: the helper starts the target as a child wired to its own
standard input/output/error; when all earlier steps succeed, a failure to
start exits with 126; a wait that reports the child's exit status makes the
helper exit with that status verbatim; a wait failing for any other reason
exits with 126; a clean wait exits 0. -/
theorem c8_helper_child :
    ∀ file tpath : List Char, ∀ targs : List (List Char),
      ∀ eff : HelperEffects, ∀ st : Int,
      targs ≠ [] →
      fileprefixConst.isPrefixOf (baseName file) = true →
      eff.openOk = true → eff.decodeOk = true → eff.closeOk = true →
      eff.removeOk = true → eff.setenvOk = true →
      (helperCmd (tpath :: targs)).path = tpath
      ∧ (helperCmd (tpath :: targs)).args = targs
      ∧ (helperCmd (tpath :: targs)).stdinInherited = true
      ∧ (helperCmd (tpath :: targs)).stdoutInherited = true
      ∧ (helperCmd (tpath :: targs)).stderrInherited = true
      ∧ (eff.startOk = false → helperMain (file :: tpath :: targs) eff = 126)
      ∧ (eff.startOk = true → eff.wait = .exitErr st →
          helperMain (file :: tpath :: targs) eff = st)
      ∧ (eff.startOk = true → eff.wait = .otherErr →
          helperMain (file :: tpath :: targs) eff = 126)
      ∧ (eff.startOk = true → eff.wait = .ok →
          helperMain (file :: tpath :: targs) eff = 0) := by
  intro file tpath targs eff st ht hpre ho hd hc hr hs
  have hl1 : 1 ≤ targs.length := by
    have := List.length_pos.mpr ht
    omega
  refine ⟨rfl, rfl, rfl, rfl, rfl, ?_, ?_, ?_, ?_⟩
  · intro hstart
    simp [helperMain, hl1, hpre, ho, hd, hc, hr, hs, hstart]
  · intro hstart hw
    simp [helperMain, hl1, hpre, ho, hd, hc, hr, hs, hstart, hw]
  · intro hstart hw
    simp [helperMain, hl1, hpre, ho, hd, hc, hr, hs, hstart, hw]
  · intro hstart hw
    simp [helperMain, hl1, hpre, ho, hd, hc, hr, hs, hstart, hw]

/-- Witness for C8 at a concrete invocation. -/
theorem c8_helper_child_witness :
    helperMain ["wenvfile".data, "C:\\x.exe".data, "x".data]
        ⟨true, true, true, true, true, true, .exitErr 7⟩ = 7
    ∧ helperMain ["wenvfile".data, "C:\\x.exe".data, "x".data]
        ⟨true, true, true, true, true, false, .ok⟩ = 126
    ∧ helperMain ["wenvfile".data, "C:\\x.exe".data, "x".data]
        ⟨true, true, true, true, true, true, .otherErr⟩ = 126
    ∧ helperMain ["wenvfile".data, "C:\\x.exe".data, "x".data]
        ⟨true, true, true, true, true, true, .ok⟩ = 0 :=
  ⟨(c8_helper_child "wenvfile".data "C:\\x.exe".data ["x".data]
      ⟨true, true, true, true, true, true, .exitErr 7⟩ 7
      (by decide) (by decide) rfl rfl rfl rfl rfl).2.2.2.2.2.2.1 rfl rfl,
   (c8_helper_child "wenvfile".data "C:\\x.exe".data ["x".data]
      ⟨true, true, true, true, true, false, .ok⟩ 0
      (by decide) (by decide) rfl rfl rfl rfl rfl).2.2.2.2.2.1 rfl,
   (c8_helper_child "wenvfile".data "C:\\x.exe".data ["x".data]
      ⟨true, true, true, true, true, true, .otherErr⟩ 0
      (by decide) (by decide) rfl rfl rfl rfl rfl).2.2.2.2.2.2.2.1 rfl rfl,
   (c8_helper_child "wenvfile".data "C:\\x.exe".data ["x".data]
      ⟨true, true, true, true, true, true, .ok⟩ 0
      (by decide) (by decide) rfl rfl rfl rfl rfl).2.2.2.2.2.2.2.2 rfl rfl⟩

end Wenv
